import Mathlib

/-!
# Verification of the `warcrycolumn` column interaction-diagram engine

Shallow embedding of the repository's numeric core (`genconcrete.py` and
`columnconc.py`) over exact rationals.  Python floats are modelled as `ℚ`;
`math.pi` is modelled as the exact value of the IEEE-754 double that Python
uses; Python `round` is modelled as decimal rounding with ties to even;
functions that can raise are modelled in `Except String`; the external
`scipy.optimize.fsolve` root finder is an abstract parameter, since the
points of interest either bypass it or are independent of its result.
-/

namespace Warcry

/-- Standard steel reinforcing bar sizes (mm), `STD_REBAR_SIZES` in
`genconcrete.py`. -/
def STD_REBAR_SIZES : List ℚ := [10, 12, 16, 20, 25, 28, 32, 36, 40, 50]

/-- The exact rational value of the IEEE-754 double `math.pi`
(3.141592653589793115997963…), the value used by `genconcrete.calc_steelarea`. -/
def mathPi : ℚ := 884279719003555 / 281474976710656

/-- Rounding of a rational to the nearest integer with ties to even,
the behaviour of Python's builtin `round`. -/
def roundHalfEven (x : ℚ) : ℤ :=
  let f := ⌊x⌋
  let r := x - f
  if r < 1 / 2 then f
  else if 1 / 2 < r then f + 1
  else if f % 2 = 0 then f else f + 1

/-- Python's `round(x, 3)`: round to three decimal places, ties to even. -/
def round3 (x : ℚ) : ℚ := (roundHalfEven (x * 1000) : ℚ) / 1000

/-- `genconcrete.calc_effdepth`: effective depths `(dt, dc)` of the section on
the tension and compression side; when `d_trans` is `None` the cover is assumed
to already account for the transverse bar. -/
def calc_effdepth (h ccover d_main : ℚ) (d_trans : Option ℚ) : ℚ × ℚ :=
  match d_trans with
  | none => (h - ccover - d_main / 2, ccover + d_main / 2)
  | some dtr => (h - ccover - dtr - d_main / 2, ccover + dtr + d_main / 2)

/-- `genconcrete.calc_steelarea`: total steel area `n_bar·π·d_main²/4` rounded
to 3 decimals; raises for fewer than 2 bars or a non-standard bar size. -/
def calc_steelarea (d_main : ℚ) (n_bar : ℤ) : Except String ℚ :=
  if n_bar < 2 then
    .error "Invalid number of rebars. Provide atleast two (2) pieces."
  else if d_main ∉ STD_REBAR_SIZES then
    .error "Rebar size is not a standard size."
  else
    .ok (round3 ((n_bar : ℚ) * d_main ^ 2 * mathPi / 4))

/-- `genconcrete.calc_betaone`: the β1 stress-block coefficient; raises for
`fc < 17`, returns the base value 0.85 for `fc ∈ [17, 28]` and for `fc ≥ 55`,
and the linear reduction in between. -/
def calc_betaone (fc : ℚ) : Except String ℚ :=
  if fc < 17 then .error "fc must be atleast 17 MPa"
  else if 17 ≤ fc ∧ fc ≤ 28 then .ok 0.85
  else if 55 ≤ fc then .ok 0.85
  else .ok (0.85 - 0.05 * (fc - 28) / 7)

/-- `genconcrete.calc_fs`: steel stress `600·(c−d)/c` clipped to `[−fy, fy]`. -/
def calc_fs (c d fy : ℚ) : ℚ :=
  let fs := 600 * ((c - d) / c)
  if |fs| > fy ∧ fs > 0 then fy
  else if |fs| > fy ∧ fs < 0 then -fy
  else fs

/-- `genconcrete.calc_phi_value`: strength-reduction factor φ as a function of
the tension-steel strain, linearly interpolated between 0.65 and 0.90. -/
def calc_phi_value (tstrain fy : ℚ) : ℚ :=
  let ystrain := fy / 200000
  let concstrain : ℚ := 0.003
  let tcstrain := ystrain + concstrain
  if tstrain ≤ ystrain then 0.65
  else if tstrain ≥ tcstrain then 0.9
  else 0.65 + 0.25 * (tstrain - ystrain) / concstrain

/-- `columnconc.ALPHA1`: Whitney stress-block coefficient 0.85. -/
def ALPHA1 : ℚ := 0.85

/-- `columnconc.max_nomaxial`: maximum nominal axial capacity `0.8·Po` of a
tied column, `Po = (0.85·fc·Ag + (fy − 0.85·fc)·As)/1000` (kN). -/
def max_nomaxial (b h As fc fy : ℚ) : ℚ :=
  let Ag := b * h
  let component_concrete := ALPHA1 * fc * Ag
  let component_steel := (fy - ALPHA1 * fc) * As
  let Po := (component_concrete + component_steel) / 1000
  0.8 * Po

/-- `columnconc.get_fconcrete`: concrete stress-block force (kN); propagates
the `calc_betaone` error for invalid `fc`. -/
def get_fconcrete (c b fc : ℚ) : Except String ℚ := do
  let beta1 ← calc_betaone fc
  return ALPHA1 * fc * beta1 * c * b / 1000

/-- `columnconc.get_fsteel`: steel-layer force (kN); with an explicit stress
`fs` it is `(fs − 0.85·fc)·As/1000`, otherwise the unclipped
strain-compatibility stress is used. -/
def get_fsteel (c d As fc : ℚ) (fs : Option ℚ) : ℚ :=
  match fs with
  | some fsv => (fsv - ALPHA1 * fc) * As / 1000
  | none => (600 * ((c - d) / c) - ALPHA1 * fc) * As / 1000

/-- Residual of `c_solver` case 1 (`iterate_c_waxial` in `columnconc.py`):
total axial force minus the maximum nominal axial capacity. -/
def iterate_c_waxial (c b h dt dc As1 As2 As fc fy : ℚ) : Except String ℚ := do
  let total_axial := max_nomaxial b h As fc fy
  let force_concrete ← get_fconcrete c b fc
  let force_steel1 := get_fsteel c dt As1 fc none
  let force_steel2 := get_fsteel c dc As2 fc none
  return force_concrete + force_steel1 + force_steel2 - total_axial

/-- Residual of `c_solver` case 2 (`iterate_c_steel1` in `columnconc.py`):
force in the tension steel, with the displaced-concrete deduction, not
divided by 1000 (as in the source). -/
def iterate_c_steel1 (c d As1 fc : ℚ) : ℚ :=
  (600 * ((c - d) / c) - ALPHA1 * fc) * As1

/-- Residual of `c_solver` case 3 (`iterate_c_woaxial` in `columnconc.py`):
total axial force with the tension steel taken at yield `fs = −fy`. -/
def iterate_c_woaxial (c b dt dc As1 As2 fc fy : ℚ) : Except String ℚ := do
  let force_concrete ← get_fconcrete c b fc
  let force_steel1 := get_fsteel c dt As1 fc (some (-fy))
  let force_steel2 := get_fsteel c dc As2 fc none
  return force_concrete + force_steel2 + force_steel1

/-- Abstract model of `scipy.optimize.fsolve` restricted to one scalar
unknown: it receives the residual function and the initial guess and yields a
result (or a non-convergence error).  The claims proved below hold for every
such solver. -/
def Solver : Type := (ℚ → Except String ℚ) → ℚ → Except String ℚ

/-- `columnconc.c_solver`: dispatches the three root-finding cases to the
solver; a condition outside 1..3 leaves `c_final` unbound in the source
(`UnboundLocalError`), modelled as an error. -/
def c_solver (fsolve : Solver) (c_initial b h dt dc As1 As2 As fc fy : ℚ)
    (condition : ℕ) : Except String ℚ :=
  match condition with
  | 1 => fsolve (fun c => iterate_c_waxial c b h dt dc As1 As2 As fc fy) c_initial
  | 2 => fsolve (fun c => .ok (iterate_c_steel1 c dt As1 fc)) c_initial
  | 3 => fsolve (fun c => iterate_c_woaxial c b dt dc As1 As2 fc fy) c_initial
  | _ => .error "UnboundLocalError: c_final"

/-- `columnconc.get_c`: neutral-axis depth for conditions 2..7; conditions
4, 5, 6 are in closed form, conditions 2, 3, 7 call the solver with the
default initial guesses `h`, `dt`, `dc` unless `c_initial` is supplied.  A
condition outside 2..7 returns `None` in the source (which the caller would
then crash on), modelled as an error. -/
def get_c (fsolve : Solver) (b h dt dc As1 As2 As fc fy : ℚ) (condition : ℕ)
    (c_initial : Option ℚ) : Except String ℚ :=
  let ystrain := fy / 200000
  let concstrain : ℚ := 0.003
  let tcstrain := ystrain + concstrain
  match condition with
  | 2 => c_solver fsolve (c_initial.getD h) b h dt dc As1 As2 As fc fy 1
  | 3 => c_solver fsolve (c_initial.getD dt) b h dt dc As1 As2 As fc fy 2
  | 4 => .ok (dt * (concstrain / (ystrain / 2 + concstrain)))
  | 5 => .ok (dt * (concstrain / (ystrain + concstrain)))
  | 6 => .ok (dt * (concstrain / (tcstrain + concstrain)))
  | 7 => c_solver fsolve (c_initial.getD dc) b h dt dc As1 As2 As fc fy 3
  | _ => .error "TypeError: c is None"

/-- `columnconc.get_cid_coordinate`: one `(φPn, φMn)` coordinate of the
8-point interaction diagram.  Points 1 and 8 are the closed-form pure
compression and pure tension points; points 2..7 obtain the neutral axis from
`get_c`, the reduction factor from `calc_phi_value`, and integrate forces and
moments about the tension steel with the re-centering term `−(dt − h/2)`.
Point 7 rounds the (near-zero) axial force to the nearest integer. -/
def get_cid_coordinate (fsolve : Solver) (b h ccover d_main d_trans : ℚ)
    (n_bar n_bar_total : ℤ) (fc fy : ℚ) (point : ℕ) (c_initial : Option ℚ) :
    Except String (ℚ × ℚ) := do
  let (dt, dc) := calc_effdepth h ccover d_main (some d_trans)
  let As1 ← calc_steelarea d_main n_bar
  let As2 ← calc_steelarea d_main n_bar
  let As_total ← calc_steelarea d_main n_bar_total
  if point = 1 then
    let PHI : ℚ := 0.65
    let nom_axial := max_nomaxial b h As_total fc fy
    let nom_moment : ℚ := 0
    return (nom_axial * PHI, nom_moment * PHI)
  else if point = 8 then
    let PHI : ℚ := 0.9
    let nom_axial := -(fy * As_total) / 1000
    let nom_moment : ℚ := 0
    return (nom_axial * PHI, nom_moment * PHI)
  else
    let beta1 ← calc_betaone fc
    let c ← get_c fsolve b h dt dc As1 As2 As_total fc fy point c_initial
    let a := beta1 * c
    let tsteel_strain :=
      if c > dt then 0.003 * ((c - dt) / c) else 0.003 * ((dt - c) / c)
    let phi_value := calc_phi_value tsteel_strain fy
    let fs_steel1 := calc_fs c dt fy
    let fs_steel2 := calc_fs c dc fy
    let fsteel1 := get_fsteel c dt As1 fc (some fs_steel1)
    let fsteel2 := get_fsteel c dc As2 fc (some fs_steel2)
    let fconcrete ← get_fconcrete c b fc
    let actual_axial := fconcrete + fsteel1 + fsteel2
    let marm_concrete := (dt - a / 2) / 1000
    let marm_steel1 := (0 : ℚ) / 1000
    let marm_steel2 := (dt - dc) / 1000
    let marm_axial := -(dt - h / 2) / 1000
    let actual_moment := fconcrete * marm_concrete + fsteel1 * marm_steel1 +
      fsteel2 * marm_steel2 + actual_axial * marm_axial
    let final_axial := if point = 7 then (roundHalfEven actual_axial : ℚ) else actual_axial
    return (final_axial * phi_value, actual_moment * phi_value)

/-- Result record of `columnconc.check_col_adequacy`. -/
structure AdequacyResult where
  is_adequate : Bool
  status : String
  summary : String
deriving DecidableEq, Repr

/-- `cid_df[col_x].min()`: the minimum of the axial column of the diagram
table (`none` on an empty table, where pandas yields NaN). -/
def colMin (cid : List (ℚ × ℚ)) : Option ℚ :=
  match cid with
  | [] => none
  | c :: rest => some (rest.foldl (fun m x => min m x.1) c.1)

/-- `cid_df[col_x].max()`: the maximum of the axial column of the diagram
table (`none` on an empty table). -/
def colMax (cid : List (ℚ × ℚ)) : Option ℚ :=
  match cid with
  | [] => none
  | c :: rest => some (rest.foldl (fun m x => max m x.1) c.1)

/-- `cid_df.sort_values(by=col_x)`: the table sorted ascending by the axial
column. -/
def sortByFst (cid : List (ℚ × ℚ)) : List (ℚ × ℚ) :=
  cid.insertionSort (fun a b => a.1 ≤ b.1)

/-- The scan of `check_col_adequacy`'s interpolation loop: walk consecutive
row pairs of the (sorted) table and return the first pair bracketing `Pu`.
`none` corresponds to the source loop running past the last row (where the
`i + 1` access raises). -/
def findBracket (Pu : ℚ) : List (ℚ × ℚ) → Option ((ℚ × ℚ) × (ℚ × ℚ))
  | p :: q :: rest =>
    if p.1 ≤ Pu ∧ Pu ≤ q.1 then some (p, q) else findBracket Pu (q :: rest)
  | _ => none

/-- `columnconc.check_col_adequacy`: demand-versus-capacity check against the
interaction-diagram table.  Raises when `input_Pu` is `None`; axial demand
outside `[min φPn, max φPn]` is a normal NG result; a nonzero moment demand is
compared against the φMn value interpolated at `input_Pu` between the first
bracketing pair of the ascending-sorted table. -/
def check_col_adequacy (input_Pu : Option ℚ) (input_Mu : ℚ)
    (cid_df : List (ℚ × ℚ)) (col_x col_y : String) :
    Except String AdequacyResult :=
  match input_Pu with
  | none => .error "Provide at least Pu value as input."
  | some Pu =>
    match colMin cid_df, colMax cid_df with
    | some min_phi_Pn, some max_phi_Pn =>
      if Pu < min_phi_Pn ∨ Pu > max_phi_Pn then
        .ok ⟨false, "NG", "Pu is greater than " ++ col_x⟩
      else if input_Mu ≠ 0 then
        let MuAbs := |input_Mu|
        match findBracket Pu (sortByFst cid_df) with
        | some (p, q) =>
          let corr_phi_Mn := p.2 - (p.1 - Pu) * (p.2 - q.2) / (p.1 - q.1)
          if MuAbs > corr_phi_Mn then
            .ok ⟨false, "NG", "Mu is greater than " ++ col_y⟩
          else
            .ok ⟨true, "OK", "Load demand does not exceed capacity"⟩
        | none => .error "KeyError: row index out of bounds"
      else .ok ⟨true, "OK", "Load demand does not exceed capacity"⟩
    | _, _ => .error "empty interaction diagram"

/-- An example 8-point interaction-diagram table used to instantiate the
adequacy-checker theorems on concrete data. -/
def demoTable : List (ℚ × ℚ) :=
  [(2000, 0), (1800, 120), (1500, 160), (1200, 180),
   (900, 190), (600, 170), (200, 140), (-700, 0)]

/-! ## Helper lemmas -/

lemma calc_betaone_linear {x : ℚ} (h1 : 28 ≤ x) (h2 : x < 55) :
    calc_betaone x = .ok (0.85 - 0.05 * (x - 28) / 7) := by
  unfold calc_betaone
  rw [if_neg (by linarith : ¬ x < 17)]
  by_cases hx : x ≤ 28
  · have hx28 : x = 28 := le_antisymm hx h1
    subst hx28
    rw [if_pos ⟨by norm_num, le_refl _⟩]
    norm_num
  · rw [if_neg (fun hh => hx hh.2), if_neg (by linarith : ¬ 55 ≤ x)]

lemma calc_steelarea_eq_ok {d : ℚ} {n : ℤ} (hd : d ∈ STD_REBAR_SIZES)
    (hn : 2 ≤ n) :
    calc_steelarea d n = .ok (round3 ((n : ℚ) * d ^ 2 * mathPi / 4)) := by
  unfold calc_steelarea
  rw [if_neg (not_lt.2 hn), if_neg (not_not_intro hd)]

/-! ## Claim theorems -/

/-- C2, counterexample: `calc_betaone` is not non-increasing on `[28, 55]`:
at `fc = 54` it returns `93/140 ≈ 0.664` but at `fc = 55` the `fc ≥ 55`
branch returns the base value `0.85` again, so `calc_betaone 54 < calc_betaone 55`. -/
theorem c2_betaone_counterexample :
    calc_betaone 54 = .ok (93 / 140) ∧ calc_betaone 55 = .ok (17 / 20) ∧
      (93 / 140 : ℚ) < 17 / 20 :=
  ⟨by norm_num [calc_betaone], by norm_num [calc_betaone], by norm_num⟩

/-- C2 (amended): for every integer `fc ∈ [17, 55]`, `calc_betaone fc`
succeeds with a value in `[0.65, 0.85]`; `calc_betaone` is non-increasing and
continuous (ε-δ) on `[28, 55)`; but at `fc = 55` it jumps back up to the base
value `0.85`. -/
theorem c2_betaone_amended :
    (∀ fc : ℤ, 17 ≤ fc → fc ≤ 55 →
      ∃ v : ℚ, calc_betaone (fc : ℚ) = .ok v ∧ 0.65 ≤ v ∧ v ≤ 0.85) ∧
    (∀ x y : ℚ, 28 ≤ x → x ≤ y → y < 55 → ∀ vx vy : ℚ,
      calc_betaone x = .ok vx → calc_betaone y = .ok vy → vy ≤ vx) ∧
    (∀ x : ℚ, 28 ≤ x → x < 55 → ∀ ε : ℚ, 0 < ε → ∃ δ : ℚ, 0 < δ ∧
      ∀ y : ℚ, 28 ≤ y → y < 55 → |y - x| < δ → ∀ vx vy : ℚ,
        calc_betaone x = .ok vx → calc_betaone y = .ok vy → |vy - vx| < ε) ∧
    calc_betaone 55 = .ok 0.85 := by
  refine ⟨?_, ?_, ?_, by norm_num [calc_betaone]⟩
  · intro fc h17 h55
    by_cases h28 : fc ≤ 28
    · refine ⟨0.85, ?_, by norm_num, by norm_num⟩
      unfold calc_betaone
      rw [if_neg (not_lt.2 (by exact_mod_cast h17 : (17 : ℚ) ≤ (fc : ℚ))),
        if_pos ⟨by exact_mod_cast h17, by exact_mod_cast h28⟩]
    · by_cases h55' : fc = 55
      · subst h55'
        exact ⟨0.85, by norm_num [calc_betaone], by norm_num, by norm_num⟩
      · have h54 : fc ≤ 54 := by omega
        have hx1 : (28 : ℚ) ≤ (fc : ℚ) := by exact_mod_cast (by omega : (28:ℤ) ≤ fc)
        have hx2 : ((fc : ℚ)) < 55 := by exact_mod_cast (by omega : fc < (55:ℤ))
        have hx3 : ((fc : ℚ)) ≤ 54 := by exact_mod_cast h54
        refine ⟨0.85 - 0.05 * ((fc : ℚ) - 28) / 7, calc_betaone_linear hx1 hx2,
          by linarith, by linarith⟩
  · intro x y hx hxy hy vx vy hvx hvy
    have hx' : x < 55 := lt_of_le_of_lt hxy hy
    rw [calc_betaone_linear hx hx'] at hvx
    rw [calc_betaone_linear (le_trans hx hxy) hy] at hvy
    have ex : vx = 0.85 - 0.05 * (x - 28) / 7 := (Except.ok.inj hvx).symm
    have ey : vy = 0.85 - 0.05 * (y - 28) / 7 := (Except.ok.inj hvy).symm
    rw [ex, ey]
    linarith
  · intro x hx hx' ε hε
    refine ⟨ε, hε, ?_⟩
    intro y hy hy' hclose vx vy hvx hvy
    rw [calc_betaone_linear hx hx'] at hvx
    rw [calc_betaone_linear hy hy'] at hvy
    have ex : vx = 0.85 - 0.05 * (x - 28) / 7 := (Except.ok.inj hvx).symm
    have ey : vy = 0.85 - 0.05 * (y - 28) / 7 := (Except.ok.inj hvy).symm
    have hdiff : vy - vx = (x - y) / 140 := by rw [ex, ey]; ring
    rw [hdiff, abs_div, abs_of_pos (by norm_num : (0:ℚ) < 140)]
    rw [abs_sub_comm] at hclose
    have hnn : 0 ≤ |x - y| := abs_nonneg _
    linarith

/-- C2 witness: the amended theorem instantiated at `fc = 30`. -/
theorem c2_betaone_amended_witness :
    ∃ v : ℚ, calc_betaone ((30 : ℤ) : ℚ) = .ok v ∧ 0.65 ≤ v ∧ v ≤ 0.85 :=
  c2_betaone_amended.1 30 (by norm_num) (by norm_num)

/-- C3: for every `fy > 0` with `ystrain = fy/200000`, `calc_phi_value`
returns 0.65 below/at the yield strain, 0.90 at/above `ystrain + 0.003`, the
linear interpolation strictly in between, and takes the exact boundary values
0.65 and 0.90 at the two transition points. -/
theorem c3_calc_phi_value_spec (fy : ℚ) (hfy : 0 < fy) :
    (∀ t : ℚ, t ≤ fy / 200000 → calc_phi_value t fy = 0.65) ∧
    (∀ t : ℚ, fy / 200000 + 0.003 ≤ t → calc_phi_value t fy = 0.9) ∧
    (∀ t : ℚ, fy / 200000 < t → t < fy / 200000 + 0.003 →
      calc_phi_value t fy = 0.65 + 0.25 * (t - fy / 200000) / 0.003) ∧
    calc_phi_value (fy / 200000) fy = 0.65 ∧
    calc_phi_value (fy / 200000 + 0.003) fy = 0.9 := by
  refine ⟨?_, ?_, ?_, ?_, ?_⟩
  · intro t ht
    simp only [calc_phi_value]
    rw [if_pos ht]
  · intro t ht
    simp only [calc_phi_value]
    rw [if_neg (by linarith : ¬ t ≤ fy / 200000), if_pos (by linarith : t ≥ fy / 200000 + 0.003)]
  · intro t h1 h2
    simp only [calc_phi_value]
    rw [if_neg (by linarith : ¬ t ≤ fy / 200000),
      if_neg (by simp only [ge_iff_le, not_le]; linarith : ¬ t ≥ fy / 200000 + 0.003)]
  · simp only [calc_phi_value]
    rw [if_pos le_rfl]
  · simp only [calc_phi_value]
    rw [if_neg (by linarith : ¬ fy / 200000 + 0.003 ≤ fy / 200000),
      if_pos (le_refl (fy / 200000 + 0.003))]

/-- C3 witness: the boundary values at `fy = 420`. -/
theorem c3_calc_phi_value_witness :
    calc_phi_value (420 / 200000) 420 = 0.65 ∧
    calc_phi_value (420 / 200000 + 0.003) 420 = 0.9 :=
  ⟨(c3_calc_phi_value_spec 420 (by norm_num)).2.2.2.1,
   (c3_calc_phi_value_spec 420 (by norm_num)).2.2.2.2⟩

/-- C7: `calc_fs` is the clip of the raw stress `600·(c−d)/c` to `[−fy, fy]`:
it returns the raw value when its absolute value is at most `fy`, `fy` when
the raw value exceeds `fy`, `−fy` when it is below `−fy`, and in particular
the result is always bounded by `fy` in absolute value. -/
theorem c7_calc_fs_clip (c d fy : ℚ) (hc : 0 < c) (hfy : 0 < fy) :
    (|600 * ((c - d) / c)| ≤ fy → calc_fs c d fy = 600 * ((c - d) / c)) ∧
    (fy < 600 * ((c - d) / c) → calc_fs c d fy = fy) ∧
    (600 * ((c - d) / c) < -fy → calc_fs c d fy = -fy) ∧
    |calc_fs c d fy| ≤ fy := by
  simp only [calc_fs]
  generalize 600 * ((c - d) / c) = raw
  split_ifs with hA hB
  · refine ⟨fun h => absurd hA.1 (not_lt.2 h), fun _ => rfl,
      fun h => absurd h (by linarith [hA.2] : ¬ raw < -fy), ?_⟩
    rw [abs_of_pos hfy]
  · refine ⟨fun h => absurd hB.1 (not_lt.2 h),
      fun h => absurd h (by linarith [hB.2] : ¬ fy < raw), fun _ => rfl, ?_⟩
    rw [abs_neg, abs_of_pos hfy]
  · have hle : |raw| ≤ fy := by
      by_contra hgt
      push_neg at hgt
      rcases lt_trichotomy raw 0 with hneg | hzero | hpos
      · exact hB ⟨hgt, hneg⟩
      · rw [hzero] at hgt
        simp at hgt
        linarith
      · exact hA ⟨hgt, hpos⟩
    refine ⟨fun _ => rfl, fun h => absurd h ?_, fun h => absurd h ?_, hle⟩
    · exact not_lt.2 (le_trans (le_abs_self raw) hle)
    · rw [not_lt]
      have := neg_abs_le raw
      linarith [abs_le.1 hle]

/-- C7 witness: for `c = 500`, `d = 58`, `fy = 420` the raw stress is
`530.4 > fy`, so the clipped stress is `fy`. -/
theorem c7_calc_fs_clip_witness : calc_fs 500 58 420 = 420 :=
  (c7_calc_fs_clip 500 58 420 (by norm_num) (by norm_num)).2.1 (by norm_num)

/-- C8: `calc_steelarea d n` equals `n·π·d²/4` rounded to 3 decimals for every
standard bar size and `n ≥ 2`, and in particular `calc_steelarea 16 4 = 804.248`. -/
theorem c8_calc_steelarea_value :
    (∀ (d : ℚ) (n : ℤ), d ∈ STD_REBAR_SIZES → 2 ≤ n →
      calc_steelarea d n = .ok (round3 ((n : ℚ) * mathPi * d ^ 2 / 4))) ∧
    calc_steelarea 16 4 = .ok (804248 / 1000) := by
  constructor
  · intro d n hd hn
    rw [calc_steelarea_eq_ok hd hn]
    congr 1
    ring_nf
  · norm_num [calc_steelarea, STD_REBAR_SIZES, round3, roundHalfEven, mathPi]

/-- C8 witness: the general formula instantiated at `d = 16`, `n = 4`. -/
theorem c8_calc_steelarea_value_witness :
    calc_steelarea 16 4 = .ok (round3 (((4 : ℤ) : ℚ) * mathPi * 16 ^ 2 / 4)) :=
  c8_calc_steelarea_value.1 16 4 (by norm_num [STD_REBAR_SIZES]) (by norm_num)

/-- C5: `get_c` for conditions 4, 5 and 6 returns the closed-form
strain-ratio expressions `dt·ε_cu/(ε_y/2 + ε_cu)`, `dt·ε_cu/(ε_y + ε_cu)` and
`dt·ε_cu/(ε_y + 2·ε_cu)` with `ε_cu = 0.003` and `ε_y = fy/200000`, for every
root-finding solver (the solver is never invoked). -/
theorem c5_get_c_closed_forms (fsolve : Solver) (b h dt dc As1 As2 As fc fy : ℚ)
    (c_initial : Option ℚ) (hfy : 0 < fy) (hdt : 0 < dt) :
    get_c fsolve b h dt dc As1 As2 As fc fy 4 c_initial =
      .ok (dt * 0.003 / (fy / 200000 / 2 + 0.003)) ∧
    get_c fsolve b h dt dc As1 As2 As fc fy 5 c_initial =
      .ok (dt * 0.003 / (fy / 200000 + 0.003)) ∧
    get_c fsolve b h dt dc As1 As2 As fc fy 6 c_initial =
      .ok (dt * 0.003 / (fy / 200000 + 2 * 0.003)) := by
  refine ⟨?_, ?_, ?_⟩
  · rw [show get_c fsolve b h dt dc As1 As2 As fc fy 4 c_initial =
      .ok (dt * ((0.003 : ℚ) / (fy / 200000 / 2 + 0.003))) from rfl]
    rw [Except.ok.injEq]
    ring
  · rw [show get_c fsolve b h dt dc As1 As2 As fc fy 5 c_initial =
      .ok (dt * ((0.003 : ℚ) / (fy / 200000 + 0.003))) from rfl]
    rw [Except.ok.injEq]
    ring
  · rw [show get_c fsolve b h dt dc As1 As2 As fc fy 6 c_initial =
      .ok (dt * ((0.003 : ℚ) / (fy / 200000 + 0.003 + 0.003))) from rfl]
    rw [Except.ok.injEq]
    ring

/-- C5 witness: the balanced condition (5) at `fy = 420`, `dt = 192`. -/
theorem c5_get_c_closed_forms_witness :
    get_c (fun _ g => .ok g) 250 250 192 58 402 402 804 21 420 5 none =
      .ok (192 * 0.003 / (420 / 200000 + 0.003)) :=
  (c5_get_c_closed_forms (fun _ g => .ok g) 250 250 192 58 402 402 804 21 420
    none (by norm_num) (by norm_num)).2.1

/-! ## Sorted-table lemmas for the adequacy checker -/

instance : IsTotal (ℚ × ℚ) (fun a b => a.1 ≤ b.1) :=
  ⟨fun a b => le_total a.1 b.1⟩

instance : IsTrans (ℚ × ℚ) (fun a b => a.1 ≤ b.1) :=
  ⟨fun _ _ _ h1 h2 => le_trans h1 h2⟩

lemma sortByFst_sorted (cid : List (ℚ × ℚ)) :
    (sortByFst cid).Sorted (fun a b => a.1 ≤ b.1) :=
  List.sorted_insertionSort _ cid

lemma sortByFst_perm (cid : List (ℚ × ℚ)) : List.Perm (sortByFst cid) cid :=
  List.perm_insertionSort _ cid

lemma foldl_min_exists (l : List (ℚ × ℚ)) (a : ℚ) :
    l.foldl (fun m x => min m x.1) a = a ∨
      ∃ x ∈ l, l.foldl (fun m x => min m x.1) a = x.1 := by
  induction l generalizing a with
  | nil => left; rfl
  | cons y t ih =>
    simp only [List.foldl_cons]
    rcases le_total a y.1 with hay | hya
    · rw [min_eq_left hay]
      rcases ih a with h | ⟨x, hx, he⟩
      · left; exact h
      · right; exact ⟨x, List.mem_cons_of_mem _ hx, he⟩
    · rw [min_eq_right hya]
      rcases ih y.1 with h | ⟨x, hx, he⟩
      · right; exact ⟨y, List.mem_cons_self _ _, h⟩
      · right; exact ⟨x, List.mem_cons_of_mem _ hx, he⟩

lemma foldl_max_exists (l : List (ℚ × ℚ)) (a : ℚ) :
    l.foldl (fun m x => max m x.1) a = a ∨
      ∃ x ∈ l, l.foldl (fun m x => max m x.1) a = x.1 := by
  induction l generalizing a with
  | nil => left; rfl
  | cons y t ih =>
    simp only [List.foldl_cons]
    rcases le_total y.1 a with hya | hay
    · rw [max_eq_left hya]
      rcases ih a with h | ⟨x, hx, he⟩
      · left; exact h
      · right; exact ⟨x, List.mem_cons_of_mem _ hx, he⟩
    · rw [max_eq_right hay]
      rcases ih y.1 with h | ⟨x, hx, he⟩
      · right; exact ⟨y, List.mem_cons_self _ _, h⟩
      · right; exact ⟨x, List.mem_cons_of_mem _ hx, he⟩

lemma colMin_attained {cid : List (ℚ × ℚ)} {mn : ℚ} (h : colMin cid = some mn) :
    ∃ x ∈ cid, x.1 = mn := by
  cases cid with
  | nil => simp [colMin] at h
  | cons c rest =>
    simp only [colMin, Option.some.injEq] at h
    rcases foldl_min_exists rest c.1 with he | ⟨x, hx, he⟩
    · exact ⟨c, List.mem_cons_self _ _, he.symm.trans h⟩
    · exact ⟨x, List.mem_cons_of_mem _ hx, he.symm.trans h⟩

lemma colMax_attained {cid : List (ℚ × ℚ)} {mx : ℚ} (h : colMax cid = some mx) :
    ∃ x ∈ cid, x.1 = mx := by
  cases cid with
  | nil => simp [colMax] at h
  | cons c rest =>
    simp only [colMax, Option.some.injEq] at h
    rcases foldl_max_exists rest c.1 with he | ⟨x, hx, he⟩
    · exact ⟨c, List.mem_cons_self _ _, he.symm.trans h⟩
    · exact ⟨x, List.mem_cons_of_mem _ hx, he.symm.trans h⟩

lemma sorted_head_le {s : ℚ × ℚ} {t : List (ℚ × ℚ)}
    (hs : (s :: t).Sorted (fun a b => a.1 ≤ b.1)) {x : ℚ × ℚ}
    (hx : x ∈ s :: t) : s.1 ≤ x.1 := by
  rcases List.mem_cons.1 hx with rfl | hx'
  · exact le_refl _
  · exact (List.sorted_cons.1 hs).1 x hx'

lemma sorted_le_last : ∀ (t : List (ℚ × ℚ)) (s : ℚ × ℚ),
    (s :: t).Sorted (fun a b => a.1 ≤ b.1) →
    ∀ x ∈ s :: t, ∀ z, (s :: t).getLast? = some z → x.1 ≤ z.1 := by
  intro t
  induction t with
  | nil =>
    intro s _ x hx z hz
    simp only [List.getLast?_singleton, Option.some.injEq] at hz
    rcases List.mem_cons.1 hx with rfl | hx'
    · rw [← hz]
    · simp at hx'
  | cons u t' ih =>
    intro s hs x hx z hz
    have hs' : (u :: t').Sorted (fun a b : ℚ × ℚ => a.1 ≤ b.1) :=
      (List.sorted_cons.1 hs).2
    have hz' : (u :: t').getLast? = some z := by
      rwa [List.getLast?_cons_cons] at hz
    rcases List.mem_cons.1 hx with rfl | hx'
    · have h1 : x.1 ≤ u.1 :=
        (List.sorted_cons.1 hs).1 u (List.mem_cons_self _ _)
      have h2 : u.1 ≤ z.1 := ih u hs' u (List.mem_cons_self _ _) z hz'
      exact le_trans h1 h2
    · exact ih u hs' x hx' z hz'

lemma findBracket_isSome (Pu : ℚ) : ∀ (t : List (ℚ × ℚ)) (p q z : ℚ × ℚ),
    (q :: t).getLast? = some z → p.1 ≤ Pu → Pu ≤ z.1 →
    (findBracket Pu (p :: q :: t)).isSome := by
  intro t
  induction t with
  | nil =>
    intro p q z hz h1 h2
    simp only [List.getLast?_singleton, Option.some.injEq] at hz
    subst hz
    simp only [findBracket]
    rw [if_pos ⟨h1, h2⟩]
    rfl
  | cons r t' ih =>
    intro p q z hz h1 h2
    have hz' : (r :: t').getLast? = some z := by
      rwa [List.getLast?_cons_cons] at hz
    simp only [findBracket]
    by_cases hc : p.1 ≤ Pu ∧ Pu ≤ q.1
    · rw [if_pos hc]; rfl
    · rw [if_neg hc]
      have hq : q.1 ≤ Pu := by
        rcases not_and_or.1 hc with h | h
        · exact absurd h1 h
        · exact le_of_lt (not_le.1 h)
      exact ih q r z hz' hq h2

lemma findBracket_some_spec (Pu : ℚ) : ∀ (l : List (ℚ × ℚ)) (p q : ℚ × ℚ),
    findBracket Pu l = some (p, q) →
    ∃ i : ℕ, l.get? i = some p ∧ l.get? (i + 1) = some q ∧
      p.1 ≤ Pu ∧ Pu ≤ q.1 := by
  intro l
  induction l with
  | nil => intro p q h; simp [findBracket] at h
  | cons a t ih =>
    cases t with
    | nil => intro p q h; simp [findBracket] at h
    | cons b t' =>
      intro p q h
      simp only [findBracket] at h
      by_cases hc : a.1 ≤ Pu ∧ Pu ≤ b.1
      · rw [if_pos hc] at h
        obtain ⟨rfl, rfl⟩ : a = p ∧ b = q := by
          have := Option.some.inj h
          exact ⟨congrArg Prod.fst this, congrArg Prod.snd this⟩
        exact ⟨0, rfl, rfl, hc.1, hc.2⟩
      · rw [if_neg hc] at h
        obtain ⟨i, h1, h2, h3, h4⟩ := ih p q h
        exact ⟨i + 1, h1, h2, h3, h4⟩

lemma bracket_of_inrange {cid : List (ℚ × ℚ)} (hlen : 2 ≤ cid.length)
    {Pu mn mx : ℚ} (hmn : colMin cid = some mn) (hmx : colMax cid = some mx)
    (h1 : mn ≤ Pu) (h2 : Pu ≤ mx) :
    (findBracket Pu (sortByFst cid)).isSome := by
  have hperm := sortByFst_perm cid
  have hsort := sortByFst_sorted cid
  have hSlen : 2 ≤ (sortByFst cid).length := by
    rw [hperm.length_eq]; exact hlen
  obtain ⟨x, hxmem, hx1⟩ := colMin_attained hmn
  obtain ⟨y, hymem, hy1⟩ := colMax_attained hmx
  have hxS : x ∈ sortByFst cid := hperm.mem_iff.2 hxmem
  have hyS : y ∈ sortByFst cid := hperm.mem_iff.2 hymem
  cases hS : sortByFst cid with
  | nil => rw [hS] at hSlen; simp at hSlen
  | cons s rest =>
    cases rest with
    | nil => rw [hS] at hSlen; simp at hSlen
    | cons q t =>
      rw [hS] at hsort hxS hyS
      have hhead : s.1 ≤ Pu := by
        have := sorted_head_le hsort hxS
        rw [hx1] at this
        exact le_trans this h1
      obtain ⟨z, hz⟩ : ∃ z, (q :: t).getLast? = some z := by
        cases t with
        | nil => exact ⟨q, rfl⟩
        | cons r t' =>
          have : (r :: t').getLast?.isSome := by
            rw [List.getLast?_isSome]; simp
          obtain ⟨z, hz⟩ := Option.isSome_iff_exists.1 this
          exact ⟨z, by rwa [List.getLast?_cons_cons]⟩
      have hlast : Pu ≤ z.1 := by
        have hz2 : (s :: q :: t).getLast? = some z := by
          rwa [List.getLast?_cons_cons]
        have := sorted_le_last (q :: t) s hsort y hyS z hz2
        rw [hy1] at this
        exact le_trans h2 this
      exact findBracket_isSome Pu t s q z hz hhead hlast

lemma check_col_adequacy_ok (Pu Mu : ℚ) (cid : List (ℚ × ℚ)) (cx cy : String)
    (hlen : 2 ≤ cid.length) :
    ∃ r, check_col_adequacy (some Pu) Mu cid cx cy = .ok r := by
  cases cid with
  | nil => simp at hlen
  | cons c rest =>
    have hmn : colMin (c :: rest) =
        some (rest.foldl (fun m x => min m x.1) c.1) := rfl
    have hmx : colMax (c :: rest) =
        some (rest.foldl (fun m x => max m x.1) c.1) := rfl
    simp only [check_col_adequacy, hmn, hmx]
    by_cases hout : Pu < rest.foldl (fun m x => min m x.1) c.1 ∨
        Pu > rest.foldl (fun m x => max m x.1) c.1
    · exact ⟨_, by rw [if_pos hout]⟩
    · rw [if_neg hout]
      by_cases hMu : Mu ≠ 0
      · rw [if_pos hMu]
        push_neg at hout
        have hsome := bracket_of_inrange hlen hmn hmx hout.1 hout.2
        obtain ⟨⟨p, q⟩, hpq⟩ := Option.isSome_iff_exists.1 hsome
        rw [hpq]
        exact ⟨_, (apply_ite Except.ok _ _ _).symm⟩
      · rw [if_neg hMu]
        exact ⟨_, rfl⟩

/-- C1: behaviour of `check_col_adequacy` on an 8-point diagram table.  When
the axial demand `Pu` lies inside `[min φPn, max φPn]`: a zero moment demand
yields `is_adequate = true` / "OK"; a nonzero moment demand finds a
consecutive pair of the ascending-sorted table bracketing `Pu` and returns
"NG" exactly when `|Mu|` exceeds the interpolated capacity
`Mn1 − (Pn1 − Pu)·(Mn1 − Mn2)/(Pn1 − Pn2)`.  When `Pu` lies outside the
range, the result is `is_adequate = false` / "NG" with the axial-range
summary. -/
theorem c1_check_col_adequacy_spec (cid : List (ℚ × ℚ)) (hlen : cid.length = 8)
    (Pu Mu : ℚ) (col_x col_y : String) (mn mx : ℚ)
    (hmn : colMin cid = some mn) (hmx : colMax cid = some mx) :
    (mn ≤ Pu ∧ Pu ≤ mx →
      (Mu = 0 → check_col_adequacy (some Pu) Mu cid col_x col_y =
        .ok ⟨true, "OK", "Load demand does not exceed capacity"⟩) ∧
      (Mu ≠ 0 → ∃ i : ℕ, ∃ p q : ℚ × ℚ,
        (sortByFst cid).get? i = some p ∧ (sortByFst cid).get? (i + 1) = some q ∧
        p.1 ≤ Pu ∧ Pu ≤ q.1 ∧
        check_col_adequacy (some Pu) Mu cid col_x col_y =
          .ok (if |Mu| > p.2 - (p.1 - Pu) * (p.2 - q.2) / (p.1 - q.1)
               then ⟨false, "NG", "Mu is greater than " ++ col_y⟩
               else ⟨true, "OK", "Load demand does not exceed capacity"⟩))) ∧
    (Pu < mn ∨ Pu > mx →
      check_col_adequacy (some Pu) Mu cid col_x col_y =
        .ok ⟨false, "NG", "Pu is greater than " ++ col_x⟩) := by
  constructor
  · intro hin
    have hnot : ¬ (Pu < mn ∨ Pu > mx) := by
      push_neg
      exact hin
    constructor
    · intro h0
      simp only [check_col_adequacy, hmn, hmx]
      rw [if_neg hnot, if_neg (fun hne => hne h0)]
    · intro hMu
      have hsome := bracket_of_inrange (by rw [hlen]; norm_num) hmn hmx hin.1 hin.2
      obtain ⟨⟨p, q⟩, hpq⟩ := Option.isSome_iff_exists.1 hsome
      obtain ⟨i, hgi, hgi1, hple, hpge⟩ := findBracket_some_spec Pu _ p q hpq
      refine ⟨i, p, q, hgi, hgi1, hple, hpge, ?_⟩
      simp only [check_col_adequacy, hmn, hmx]
      rw [if_neg hnot, if_pos hMu, hpq]
      exact (apply_ite Except.ok _ _ _).symm
  · intro hout
    simp only [check_col_adequacy, hmn, hmx]
    rw [if_pos hout]

/-- C1 witness: zero moment demand, in-range axial demand, concrete table. -/
theorem c1_check_col_adequacy_spec_witness :
    check_col_adequacy (some 100) 0 demoTable "phi_Pn" "phi_Mnx" =
      .ok ⟨true, "OK", "Load demand does not exceed capacity"⟩ :=
  ((c1_check_col_adequacy_spec demoTable rfl 100 0 "phi_Pn" "phi_Mnx"
      (-700) 2000
      (by norm_num [colMin, demoTable, min_def])
      (by norm_num [colMax, demoTable, max_def])).1
    (by norm_num)).1 rfl

/-- C6: error behaviour of the core.  `calc_steelarea` raises exactly when
the bar count is below 2 or the bar size is non-standard; `calc_betaone`
raises exactly when `fc < 17`; `check_col_adequacy` on an 8-point table
raises exactly when the axial demand is absent; and an axial demand outside
the capacity range is returned as a normal `is_adequate = false` result
rather than raised. -/
theorem c6_error_kinds :
    (∀ (d : ℚ) (n : ℤ),
      (∃ e, calc_steelarea d n = .error e) ↔ (n < 2 ∨ d ∉ STD_REBAR_SIZES)) ∧
    (∀ fc : ℚ, (∃ e, calc_betaone fc = .error e) ↔ fc < 17) ∧
    (∀ (Pu? : Option ℚ) (Mu : ℚ) (cid : List (ℚ × ℚ)) (cx cy : String),
      cid.length = 8 →
      ((∃ e, check_col_adequacy Pu? Mu cid cx cy = .error e) ↔ Pu? = none)) ∧
    (∀ (Pu Mu : ℚ) (cid : List (ℚ × ℚ)) (cx cy : String) (mn mx : ℚ),
      colMin cid = some mn → colMax cid = some mx → (Pu < mn ∨ Pu > mx) →
      check_col_adequacy (some Pu) Mu cid cx cy =
        .ok ⟨false, "NG", "Pu is greater than " ++ cx⟩) := by
  refine ⟨?_, ?_, ?_, ?_⟩
  · intro d n
    constructor
    · rintro ⟨e, he⟩
      by_contra hno
      push_neg at hno
      rw [calc_steelarea_eq_ok hno.2 hno.1] at he
      exact Except.noConfusion he
    · intro h
      unfold calc_steelarea
      by_cases hn : n < 2
      · rw [if_pos hn]
        exact ⟨_, rfl⟩
      · rw [if_neg hn, if_pos (h.resolve_left hn)]
        exact ⟨_, rfl⟩
  · intro fc
    constructor
    · rintro ⟨e, he⟩
      by_contra hge
      unfold calc_betaone at he
      rw [if_neg hge] at he
      by_cases h2 : 17 ≤ fc ∧ fc ≤ 28
      · rw [if_pos h2] at he
        exact Except.noConfusion he
      · rw [if_neg h2] at he
        by_cases h3 : 55 ≤ fc
        · rw [if_pos h3] at he
          exact Except.noConfusion he
        · rw [if_neg h3] at he
          exact Except.noConfusion he
    · intro h
      unfold calc_betaone
      rw [if_pos h]
      exact ⟨_, rfl⟩
  · intro Pu? Mu cid cx cy hlen
    constructor
    · rintro ⟨e, he⟩
      cases Pu? with
      | none => rfl
      | some Pu =>
        obtain ⟨r, hr⟩ :=
          check_col_adequacy_ok Pu Mu cid cx cy (by rw [hlen]; norm_num)
        rw [hr] at he
        exact Except.noConfusion he
    · rintro rfl
      exact ⟨_, rfl⟩
  · intro Pu Mu cid cx cy mn mx hmn hmx hout
    simp only [check_col_adequacy, hmn, hmx]
    rw [if_pos hout]

/-- C6 witness: the missing-axial-demand case and the out-of-range case on a
concrete table. -/
theorem c6_error_kinds_witness :
    ((∃ e, check_col_adequacy none 50 demoTable "phi_Pn" "phi_Mnx" = .error e) ↔
      (none : Option ℚ) = none) ∧
    check_col_adequacy (some 5000) 50 demoTable "phi_Pn" "phi_Mnx" =
      .ok ⟨false, "NG", "Pu is greater than phi_Pn"⟩ :=
  ⟨c6_error_kinds.2.2.1 none 50 demoTable "phi_Pn" "phi_Mnx" rfl,
   c6_error_kinds.2.2.2 5000 50 demoTable "phi_Pn" "phi_Mnx" (-700) 2000
     (by norm_num [colMin, demoTable, min_def])
     (by norm_num [colMax, demoTable, max_def])
     (by norm_num)⟩

/-- C10 (implicit safety): whenever the axial demand lies inside the table's
`[min, max]` range and the moment demand is nonzero, the ascending-sorted
8-row table always contains a consecutive bracketing pair at an index
`i ≤ 6`, so the loop never reads past the last row and the interpolated
capacity is assigned before the comparison; consequently the checker returns
a normal (non-error) result. -/
theorem c10_bracket_always_found (cid : List (ℚ × ℚ)) (hlen : cid.length = 8)
    (Pu Mu : ℚ) (col_x col_y : String) (mn mx : ℚ)
    (hmn : colMin cid = some mn) (hmx : colMax cid = some mx)
    (h1 : mn ≤ Pu) (h2 : Pu ≤ mx) (hMu : Mu ≠ 0) :
    (∃ i : ℕ, ∃ p q : ℚ × ℚ, i ≤ 6 ∧
      (sortByFst cid).get? i = some p ∧ (sortByFst cid).get? (i + 1) = some q ∧
      p.1 ≤ Pu ∧ Pu ≤ q.1) ∧
    ∃ r : AdequacyResult,
      check_col_adequacy (some Pu) Mu cid col_x col_y = .ok r := by
  constructor
  · have hsome := bracket_of_inrange (by rw [hlen]; norm_num) hmn hmx h1 h2
    obtain ⟨⟨p, q⟩, hpq⟩ := Option.isSome_iff_exists.1 hsome
    obtain ⟨i, hgi, hgi1, hple, hpge⟩ := findBracket_some_spec Pu _ p q hpq
    have hSlen : (sortByFst cid).length = 8 := by
      rw [(sortByFst_perm cid).length_eq, hlen]
    have hi : i + 1 < 8 := by
      by_contra hge
      rw [List.get?_eq_none.2 (by omega : (sortByFst cid).length ≤ i + 1)] at hgi1
      exact Option.noConfusion hgi1
    exact ⟨i, p, q, by omega, hgi, hgi1, hple, hpge⟩
  · exact check_col_adequacy_ok Pu Mu cid col_x col_y (by rw [hlen]; norm_num)

/-- C10 witness: the safety property on a concrete table and in-range demand. -/
theorem c10_bracket_always_found_witness :
    (∃ i : ℕ, ∃ p q : ℚ × ℚ, i ≤ 6 ∧
      (sortByFst demoTable).get? i = some p ∧
      (sortByFst demoTable).get? (i + 1) = some q ∧
      p.1 ≤ (100 : ℚ) ∧ (100 : ℚ) ≤ q.1) ∧
    ∃ r : AdequacyResult,
      check_col_adequacy (some 100) 50 demoTable "phi_Pn" "phi_Mnx" = .ok r :=
  c10_bracket_always_found demoTable rfl 100 50 "phi_Pn" "phi_Mnx" (-700) 2000
    (by norm_num [colMin, demoTable, min_def])
    (by norm_num [colMax, demoTable, max_def])
    (by norm_num) (by norm_num) (by norm_num)

/-- C4: interaction-diagram points 1 and 8.  For a valid section (standard bar
size, at least two bars), point 1 is the pure-compression closed form
`0.65 · 0.8·(0.85·fc·b·h + (fy − 0.85·fc)·As_total)/1000` with zero moment and
point 8 is the pure-tension closed form `0.90 · (−fy·As_total/1000)` with zero
moment, where `As_total` is the rounded total steel area; both hold for every
solver, so neither point invokes the neutral-axis solver. -/
theorem c4_points_one_eight (fsolve : Solver) (b h ccover d_main d_trans : ℚ)
    (n_bar n_bar_total : ℤ) (fc fy : ℚ) (c_initial : Option ℚ)
    (hd : d_main ∈ STD_REBAR_SIZES) (hn : 2 ≤ n_bar) (hnt : 2 ≤ n_bar_total)
    (A : ℚ) (hA : calc_steelarea d_main n_bar_total = .ok A) :
    get_cid_coordinate fsolve b h ccover d_main d_trans n_bar n_bar_total
        fc fy 1 c_initial =
      .ok (0.65 * 0.8 * (0.85 * fc * b * h + (fy - 0.85 * fc) * A) / 1000, 0) ∧
    get_cid_coordinate fsolve b h ccover d_main d_trans n_bar n_bar_total
        fc fy 8 c_initial =
      .ok (0.9 * (-(fy * A) / 1000), 0) := by
  constructor
  · simp only [get_cid_coordinate, calc_effdepth, calc_steelarea_eq_ok hd hn,
      hA, bind, Except.bind, pure, Except.pure, eq_self_iff_true, if_true]
    rw [Except.ok.injEq, Prod.mk.injEq]
    constructor
    · unfold max_nomaxial ALPHA1
      ring
    · norm_num
  · simp only [get_cid_coordinate, calc_effdepth, calc_steelarea_eq_ok hd hn,
      hA, bind, Except.bind, pure, Except.pure, eq_self_iff_true, if_true]
    rw [if_neg (by norm_num : ¬ (8 : ℕ) = 1)]
    rw [Except.ok.injEq, Prod.mk.injEq]
    constructor
    · ring
    · norm_num

/-- C4 witness: the two closed-form points for the 250×250 section with 4×16mm
bars, `fc = 21`, `fy = 420`. -/
theorem c4_points_one_eight_witness :
    get_cid_coordinate (fun _ g => .ok g) 250 250 40 16 10 2 4 21 420 1 none =
      .ok (0.65 * 0.8 * (0.85 * 21 * 250 * 250 +
        (420 - 0.85 * 21) * (804248 / 1000)) / 1000, 0) ∧
    get_cid_coordinate (fun _ g => .ok g) 250 250 40 16 10 2 4 21 420 8 none =
      .ok (0.9 * (-(420 * (804248 / 1000)) / 1000), 0) :=
  c4_points_one_eight (fun _ g => .ok g) 250 250 40 16 10 2 4 21 420 none
    (by norm_num [STD_REBAR_SIZES]) (by norm_num) (by norm_num)
    (804248 / 1000)
    (by norm_num [calc_steelarea, STD_REBAR_SIZES, round3, roundHalfEven, mathPi])

/-- C9: for a square symmetric section (`b = h` and equal bar counts on both
faces), the coordinate produced for each point `1..8` about the major axis
equals the coordinate produced by the same call with the roles of `b` and `h`
(and the face bar counts) swapped — exactly the argument swap the application
layer performs for the minor axis — so the two 8-point diagrams coincide. -/
theorem c9_square_diagrams_equal (fsolve : Solver) (b h ccover d_main d_trans : ℚ)
    (n_bar_b n_bar_h n_bar_total : ℤ) (fc fy : ℚ) (point : ℕ)
    (hpoint : 1 ≤ point ∧ point ≤ 8) (hbh : b = h) (hbar : n_bar_b = n_bar_h) :
    get_cid_coordinate fsolve b h ccover d_main d_trans n_bar_b n_bar_total
      fc fy point none =
    get_cid_coordinate fsolve h b ccover d_main d_trans n_bar_h n_bar_total
      fc fy point none := by
  subst hbh
  subst hbar
  rfl

/-- C9 witness: a concrete square section at the balanced point 5. -/
theorem c9_square_diagrams_equal_witness :
    get_cid_coordinate (fun _ g => .ok g) 250 250 40 16 10 2 8 21 420 5 none =
    get_cid_coordinate (fun _ g => .ok g) 250 250 40 16 10 2 8 21 420 5 none :=
  c9_square_diagrams_equal (fun _ g => .ok g) 250 250 40 16 10 2 2 8 21 420 5
    ⟨by norm_num, by norm_num⟩ rfl rfl

end Warcry
